import Mathlib

/-!
Verification of the entity layer of `reddit-mobile`
(`src/apiClient/apiBase/Model.js`): the `Model` class that parses raw API
payloads into frozen, typed instances, plus its `set`/`stub`/`toJSON`
operations.

The embedding is shallow: JavaScript values are modelled by the inductive
`JSVal` (numbers restricted to integers plus a NaN point, which covers every
value the claims exercise), JavaScript objects by insertion-ordered
association lists (`Obj`), and each method of `Model.js` by a total Lean
function translated line by line from the source.  `Math.random()` is made
explicit: every call site that may consume randomness takes a `Nat` seed.
`Object.freeze` has no observable effect in a purely functional model; the
`new`-allocates-a-fresh-object behaviour relevant to the immutability claim
is modelled separately by a small heap (`Heap`) to which construction
appends.
-/

/-- JavaScript values, restricted to the fragment the entity layer
manipulates: `undefined`, `null`, booleans, integer numbers plus `NaN`,
strings, arrays, and opaque non-JSON objects such as promises (`handle`). -/
inductive JSVal where
  | undefined : JSVal
  | null : JSVal
  | bool : Bool → JSVal
  | num : Int → JSVal
  | nan : JSVal
  | str : String → JSVal
  | arr : List JSVal → JSVal
  | handle : Nat → JSVal

/-- JavaScript truthiness (`Boolean(v)`): `undefined`, `null`, `false`,
`0`, `NaN` and `""` are falsy; every other value, arrays and objects
included, is truthy. -/
def truthy : JSVal → Bool
  | .undefined => false
  | .null => false
  | .bool b => b
  | .num n => n != 0
  | .nan => false
  | .str s => s != ""
  | .arr _ => true
  | .handle _ => true

mutual
/-- JavaScript `String(v)` on the modelled fragment: arrays join their
elements with `","`, `undefined`/`null` elements rendering as `""`. -/
def jsToString : JSVal → String
  | .undefined => "undefined"
  | .null => "null"
  | .bool true => "true"
  | .bool false => "false"
  | .num n => toString n
  | .nan => "NaN"
  | .str s => s
  | .arr xs => String.intercalate "," (arrParts xs)
  | .handle _ => "[object Promise]"

/-- Stringification of array elements for `Array.prototype.toString`:
`undefined` and `null` become the empty string. -/
def arrParts : List JSVal → List String
  | [] => []
  | .undefined :: xs => "" :: arrParts xs
  | .null :: xs => "" :: arrParts xs
  | x :: xs => jsToString x :: arrParts xs
end

/-- Interpret a list of characters as an unsigned decimal numeral
(`none` when empty or containing a non-digit). -/
def digitsToNat : List Char → Option Nat
  | [] => none
  | cs =>
    if cs.all Char.isDigit
    then some (cs.foldl (fun acc c => acc * 10 + (c.toNat - 48)) 0)
    else none

/-- JavaScript `Number(s)` for a string, on the decimal-integer fragment:
whitespace is trimmed, the empty string is `0`, an optional sign followed
by digits parses as an integer, anything else is `NaN`. -/
def strToNumber (s : String) : JSVal :=
  if s.trim = "" then .num 0
  else
    match s.trim.toList with
    | '-' :: rest =>
      match digitsToNat rest with
      | some n => .num (-(n : Int))
      | none => .nan
    | '+' :: rest =>
      match digitsToNat rest with
      | some n => .num (n : Int)
      | none => .nan
    | cs =>
      match digitsToNat cs with
      | some n => .num (n : Int)
      | none => .nan

/-- JavaScript `Number(v)` on the modelled fragment (`ToNumber`):
objects and arrays go through their string form. -/
def jsToNumber : JSVal → JSVal
  | .undefined => .nan
  | .null => .num 0
  | .bool true => .num 1
  | .bool false => .num 0
  | .num n => .num n
  | .nan => .nan
  | .str s => strToNumber s
  | .arr xs => strToNumber (jsToString (.arr xs))
  | .handle _ => .nan

/-- `ToPrimitive` on the modelled fragment: arrays and opaque objects
convert to their string form, primitives are themselves. -/
def jsToPrimitive : JSVal → JSVal
  | .arr xs => .str (jsToString (.arr xs))
  | .handle n => .str (jsToString (.handle n))
  | v => v

/-- Whether a primitive is a string (drives the `+` operator's choice
between concatenation and numeric addition). -/
def isStr : JSVal → Bool
  | .str _ => true
  | _ => false

/-- JavaScript binary `+`: if either operand converts to a string, the
result is string concatenation; otherwise numeric addition, `NaN`
absorbing. -/
def jsAdd (a b : JSVal) : JSVal :=
  let pa := jsToPrimitive a
  let pb := jsToPrimitive b
  if isStr pa || isStr pb then .str (jsToString pa ++ jsToString pb)
  else
    match jsToNumber pa, jsToNumber pb with
    | .num x, .num y => .num (x + y)
    | _, _ => .nan

/-- A JavaScript object: an insertion-ordered association list of
property name and value.  Objects built by the embedding always have
distinct keys, mirroring real JavaScript objects. -/
abbrev Obj := List (String × JSVal)

/-- Property read `o[k]`: `undefined` when the property is absent. -/
def getProp (o : Obj) (k : String) : JSVal :=
  match List.find? (fun kv => kv.1 == k) o with
  | some kv => kv.2
  | none => .undefined

/-- Whether the object has the property (`k in o`): distinguishes an
absent property from one explicitly set to `undefined`. -/
def hasKey (o : Obj) (k : String) : Bool :=
  List.any o (fun kv => kv.1 == k)

/-- Property write `o[k] = v`: updates in place when the key exists
(keeping its position), otherwise appends — JavaScript's enumeration
order for string keys. -/
def setProp (o : Obj) (k : String) (v : JSVal) : Obj :=
  if hasKey o k
  then List.map (fun kv => if kv.1 == k then (k, v) else kv) o
  else List.append o [(k, v)]

/-- `Object.keys(o)`, in insertion order. -/
def objKeys (o : Obj) : List String :=
  List.map Prod.fst o

/-- Object spread `\x7b...a, ...b\x7d`: every property of `b` written over `a`. -/
def jsMerge (a b : Obj) : Obj :=
  List.foldl (fun acc kv => setProp acc kv.1 kv.2) a b

namespace Model

/-! ### The type-transformer registry (`Model.Types`, Model.js lines 37-61).
Zero-argument JavaScript calls pass `undefined` for the parameter, so the
"called with no argument" behaviour of each transformer is its value at
`JSVal.undefined`. -/

namespace Types

/-- `string: val => val ? String(val) : ''` -/
def string (val : JSVal) : JSVal :=
  if truthy val then .str (jsToString val) else .str ""

/-- `number: val => val === undefined ? 0 : Number(val)` -/
def number (val : JSVal) : JSVal :=
  match val with
  | .undefined => .num 0
  | v => jsToNumber v

/-- `array: val => Array.isArray(val) ? val : []` -/
def array (val : JSVal) : JSVal :=
  match val with
  | .arr xs => .arr xs
  | _ => .arr []

/-- `nop: val => val` -/
def nop (val : JSVal) : JSVal := val

/-- `arrayOf: (type=Model.Types.nop) => val => Model.Types.array(val).map(type)` -/
def arrayOf (type : JSVal → JSVal := nop) (val : JSVal) : JSVal :=
  match array val with
  | .arr xs => .arr (List.map type xs)
  | v => v

/-- `bool: val => Boolean(val)` -/
def bool (val : JSVal) : JSVal := .bool (truthy val)

/-- `likes`: a `switch` on strict equality with `true`, `false`, `null`;
everything else falls through to the default case and is returned as is. -/
def likes (val : JSVal) : JSVal :=
  match val with
  | .bool true => .num 1
  | .bool false => .num (-1)
  | .null => .num 0
  | v => v

end Types

/-- `const fakeUUID = () => (Math.random() * 16).toFixed();`
`Math.random()` is in `[0, 1)`, so the rounded value is an integer in
`0..16`; the seed `r` selects which.  The result is always a non-empty
decimal string. -/
def fakeUUID (r : Nat) : JSVal :=
  .str (toString (r % 17))

/-- An entity schema: the static configuration a `Model` subclass
declares (`static type`, `API_ALIASES`, `PROPERTIES`,
`DERIVED_PROPERTIES`), read by the constructor at run time. -/
structure Schema where
  type : JSVal
  API_ALIASES : List (String × String)
  PROPERTIES : List (String × (JSVal → JSVal))
  DERIVED_PROPERTIES : List (String × (Obj → JSVal))

/-- Dictionary lookup `dict[key]` as the constructor performs it on the
schema's maps: the first entry with the key, `none` when absent.  (Keys of
a JavaScript object literal are distinct, so first-match is exact.) -/
def lookupKey (l : List (String × α)) (k : String) : Option α :=
  match List.find? (fun kv => kv.1 == k) l with
  | some kv => some kv.2
  | none => none

/-- `let keyName = API_ALIASES[key]; if (!keyName) { keyName = key; }` —
a missing alias, or a falsy (empty-string) alias target, leaves the raw
key in force. -/
def resolveAlias (aliases : List (String × String)) (key : String) : String :=
  match lookupKey aliases key with
  | some a => if a = "" then key else a
  | none => key

/-- One iteration of the constructor's loop over `Object.keys(data)`
(lines 95-108): a key naming a derived property is skipped; otherwise the
key is alias-resolved and, when a transformer exists for the canonical
name, the transformed value is assigned. -/
def assignStep (S : Schema) (data : Obj) (this : Obj) (key : String) : Obj :=
  if (lookupKey S.DERIVED_PROPERTIES key).isSome then this
  else
    let keyName := resolveAlias S.API_ALIASES key
    match lookupKey S.PROPERTIES keyName with
    | some typeFn => setProp this keyName (typeFn (getProp data key))
    | none => this

/-- Constructor lines 94-108: the loop over `Object.keys(data)`. -/
def assignFromData (S : Schema) (data : Obj) : Obj :=
  List.foldl (assignStep S data) ([] : Obj) (objKeys data)

/-- One iteration of the `for..in PROPERTIES` loop (lines 110-114): a
declared property still `=== undefined` is assigned its transformer's
zero-argument default. -/
def fillStep (this : Obj) (pt : String × (JSVal → JSVal)) : Obj :=
  match getProp this pt.1 with
  | .undefined => setProp this pt.1 (pt.2 .undefined)
  | _ => this

/-- Constructor lines 110-114: the default-fill loop. -/
def defaultFill (S : Schema) (this : Obj) : Obj :=
  List.foldl fillStep this S.PROPERTIES

/-- One iteration of the derived-properties loop (lines 116-125): a
derived property with a matching transformer is recomputed from the raw
`data` and written over whatever the earlier steps produced. -/
def derivedStep (S : Schema) (data : Obj) (this : Obj)
    (dk : String × (Obj → JSVal)) : Obj :=
  match lookupKey S.PROPERTIES dk.1 with
  | some typeFn => setProp this dk.1 (typeFn (dk.2 data))
  | none => this

/-- Constructor lines 116-125: the derived-properties loop. -/
def applyDerived (S : Schema) (data : Obj) (this : Obj) : Obj :=
  List.foldl (derivedStep S data) this S.DERIVED_PROPERTIES

/-- `makeUUID(data)` (lines 188-193): `data.uuid` if truthy, else
`data.id` if truthy, else a fake UUID (with a console warning). -/
def makeUUID (data : Obj) (r : Nat) : JSVal :=
  if truthy (getProp data "uuid") then getProp data "uuid"
  else if truthy (getProp data "id") then getProp data "id"
  else fakeUUID r

/-- `makePaginationId(data)` (lines 195-197): `this.uuid ||
this.makeUUID(data)`. -/
def makePaginationId (thisUuid : JSVal) (data : Obj) (r : Nat) : JSVal :=
  if truthy thisUuid then thisUuid else makeUUID data r

/-- The constructor (lines 86-134) minus the freeze, which has no
observable effect in a value model: positional assignment, default fill,
derived properties, then `uuid`, `paginationId` and `type`.  `r1` seeds
the `makeUUID` call, `r2` the (dead in practice) fallback inside
`makePaginationId`. -/
def construct (S : Schema) (data : Obj) (r1 r2 : Nat) : Obj :=
  let this := assignFromData S data
  let this := defaultFill S this
  let this := applyDerived S data this
  let u := makeUUID data r1
  let this := setProp this "uuid" u
  let this := setProp this "paginationId" (makePaginationId u data r2)
  setProp this "type" S.type

/-- One iteration of the `toJSON` loop (lines 209-213): a property of
`this` that appears in `PROPERTIES` is copied into the output object. -/
def jsonStep (S : Schema) (this : Obj) (obj : Obj) (key : String) : Obj :=
  if (lookupKey S.PROPERTIES key).isSome
  then setProp obj key (getProp this key)
  else obj

/-- `toJSON()` (lines 207-217): the properties of `this` that appear in
`PROPERTIES`, then `uuid` and `type` written on top. -/
def toJSON (S : Schema) (this : Obj) : Obj :=
  let obj := List.foldl (jsonStep S this) ([] : Obj) (objKeys this)
  let obj := setProp obj "uuid" (getProp this "uuid")
  setProp obj "type" (getProp this "type")

/-- The first argument of `set`/`stub`/`_diff`: a single property name or
a patch object. -/
inductive KeyOrObj where
  | key : String → KeyOrObj
  | obj : Obj → KeyOrObj

/-- `_diff(keyOrObject, value)` (lines 136-140). -/
def diffOf (keyOrObject : KeyOrObj) (value : JSVal) : Obj :=
  match keyOrObject with
  | .obj o => o
  | .key k => [(k, value)]

/-- `set(keyOrObject, value)` (lines 142-144): re-run the constructor on
the instance's JSON merged with the diff. -/
def set (S : Schema) (this : Obj) (keyOrObject : KeyOrObj) (value : JSVal)
    (r1 r2 : Nat) : Obj :=
  construct S (jsMerge (toJSON S this) (diffOf keyOrObject value)) r1 r2

/-- `stub(keyOrObject, valueOrPromise, promise)` (lines 176-186): build
the merged-input instance with freezing deferred, attach the promise as
the `promise` property, then freeze. -/
def stub (S : Schema) (this : Obj) (keyOrObject : KeyOrObj)
    (valueOrPromise : JSVal) (promise : JSVal) (r1 r2 : Nat) : Obj :=
  let promise := if truthy promise then promise else valueOrPromise
  let next := jsMerge (toJSON S this) (diffOf keyOrObject valueOrPromise)
  let stub := construct S next r1 r2
  setProp stub "promise" promise

/-! ### Allocation model for `new`.
JavaScript's `new this.constructor(...)` always allocates a fresh object;
`set` therefore returns an instance distinct from every existing one and
leaves every existing instance untouched.  A heap is a list of constructed
instances; a reference is an index into it. -/

/-- The heap of constructed instances. -/
abbrev Heap := List Obj

/-- Read a reference. -/
def heapGet (h : Heap) (ref : Nat) : Obj :=
  List.getD h ref ([] : List (String × JSVal))

/-- `new`: append the constructed instance, return the heap and the fresh
reference. -/
def newModel (h : Heap) (S : Schema) (data : Obj) (r1 r2 : Nat) : Heap × Nat :=
  (h ++ [construct S data r1 r2], List.length h)

/-- `set` acting on a heap reference: serialize, merge the diff, allocate
the new instance. -/
def setRef (h : Heap) (S : Schema) (ref : Nat) (keyOrObject : KeyOrObj)
    (value : JSVal) (r1 r2 : Nat) : Heap × Nat :=
  newModel h S (jsMerge (toJSON S (heapGet h ref)) (diffOf keyOrObject value)) r1 r2

end Model


/-! ### Concrete schemas and inputs used to instantiate the claims -/

/-- The derivation function of the spec's derived-field scenario:
`raw => raw.a + raw.b`. -/
def totalDerive : Obj → JSVal :=
  fun raw => jsAdd (getProp raw "a") (getProp raw "b")

/-- Spec scenario schema: transformer `total: number` and derivation
`total: raw => raw.a + raw.b`. -/
def cxSchema : Model.Schema :=
  ⟨.str "thing", [], [("total", Model.Types.number)], [("total", totalDerive)]⟩

/-- Spec scenario raw input: a = 2, b = 3, total = 999, uuid = "u". -/
def cxData : Obj :=
  [("a", .num 2), ("b", .num 3), ("total", .num 999), ("uuid", .str "u")]

/-- Round-trip witness schema: alias x to y, fields y: string, b: number. -/
def rtSchema : Model.Schema :=
  ⟨.str "thing", [("x", "y")],
    [("y", Model.Types.string), ("b", Model.Types.number)], []⟩

/-- Round-trip witness raw input: x = 5, id = "i1". -/
def rtData : Obj := [("x", .num 5), ("id", .str "i1")]

/-- Default-fill schema from the spec: fields a: string, b: number. -/
def abSchema : Model.Schema :=
  ⟨.str "thing", [], [("a", Model.Types.string), ("b", Model.Types.number)], []⟩

/-- Alias-resolution schema from the spec: alias x to y, transformer
y: string. -/
def aliasSchema : Model.Schema :=
  ⟨.str "thing", [("x", "y")], [("y", Model.Types.string)], []⟩

/-- Stub-scenario schema: a single score: number field. -/
def stSchema : Model.Schema :=
  ⟨.str "t4", [], [("score", Model.Types.number)], []⟩

/-- Stub-scenario raw input: score = 10, id = "i1". -/
def stData : Obj := [("score", .num 10), ("id", .str "i1")]

/-- A one-instance heap for the immutability witness. -/
def exHeap : Model.Heap := [Model.construct abSchema [] 0 0]

/-! ### Basic properties of `getProp`, `hasKey`, `setProp`, `objKeys` -/

theorem getProp_cons (kv : String × JSVal) (o : Obj) (k : String) :
    getProp (kv :: o) k = if kv.1 == k then kv.2 else getProp o k := by
  simp only [getProp, List.find?]
  cases h : kv.1 == k <;> simp [h]

theorem hasKey_cons (kv : String × JSVal) (o : Obj) (k : String) :
    hasKey (kv :: o) k = (kv.1 == k || hasKey o k) := by
  simp [hasKey]

theorem hasKey_eq_mem (o : Obj) (k : String) :
    hasKey o k = true ↔ k ∈ objKeys o := by
  induction o with
  | nil => simp [hasKey, objKeys]
  | cons kv o ih =>
    simp only [hasKey_cons, objKeys, List.map_cons, List.mem_cons, Bool.or_eq_true,
      beq_iff_eq]
    constructor
    · rintro (h | h)
      · exact Or.inl h.symm
      · exact Or.inr (ih.mp h)
    · rintro (h | h)
      · exact Or.inl h.symm
      · exact Or.inr (ih.mpr h)

theorem objKeys_map_upd (o : Obj) (k : String) (v : JSVal) :
    objKeys (List.map (fun kv => if kv.1 == k then (k, v) else kv) o) = objKeys o := by
  induction o with
  | nil => rfl
  | cons kv o ih =>
    simp only [objKeys, List.map_cons] at *
    cases h : kv.1 == k
    · simp only [h, Bool.false_eq_true, if_false, ih]
    · simp only [h, if_true, ih]
      rw [beq_iff_eq] at h
      simp [h]

theorem getProp_upd_self (o : Obj) (k : String) (v : JSVal) (h : hasKey o k = true) :
    getProp (List.map (fun kv => if kv.1 == k then (k, v) else kv) o) k = v := by
  induction o with
  | nil => simp [hasKey] at h
  | cons kv o ih =>
    rw [hasKey_cons] at h
    cases hk : kv.1 == k
    · simp only [hk, Bool.false_or] at h
      simp only [List.map_cons, hk, Bool.false_eq_true, if_false, getProp_cons, hk]
      exact ih h
    · simp only [List.map_cons, hk, if_true, getProp_cons, beq_self_eq_true, if_true]

theorem getProp_upd_ne (o : Obj) (k k' : String) (v : JSVal) (h : k' ≠ k) :
    getProp (List.map (fun kv => if kv.1 == k then (k, v) else kv) o) k'
      = getProp o k' := by
  induction o with
  | nil => rfl
  | cons kv o ih =>
    cases hk : kv.1 == k
    · simp only [List.map_cons, hk, Bool.false_eq_true, if_false, getProp_cons, ih]
    · rw [beq_iff_eq] at hk
      have hne : (k == k') = false := by
        rw [beq_eq_false_iff_ne]
        exact fun hh => h hh.symm
      have hne' : (kv.1 == k') = false := by
        rw [beq_eq_false_iff_ne, hk]
        exact fun hh => h hh.symm
      simp only [List.map_cons, hk, beq_self_eq_true, if_true, getProp_cons, hne, hne',
        Bool.false_eq_true, if_false, ih]

theorem getProp_append_single_self (o : Obj) (k : String) (v : JSVal)
    (h : hasKey o k = false) :
    getProp (List.append o [(k, v)]) k = v := by
  induction o with
  | nil => simp [getProp, List.find?]
  | cons kv o ih =>
    rw [hasKey_cons, Bool.or_eq_false_iff] at h
    have : List.append (kv :: o) [(k, v)] = kv :: List.append o [(k, v)] := rfl
    rw [this, getProp_cons, h.1, if_neg (by simp)]
    exact ih h.2

theorem getProp_append_single_ne (o : Obj) (k k' : String) (v : JSVal) (h : k' ≠ k) :
    getProp (List.append o [(k, v)]) k' = getProp o k' := by
  induction o with
  | nil =>
    have hne : (k == k') = false := by
      rw [beq_eq_false_iff_ne]
      exact fun hh => h hh.symm
    simp [getProp, List.find?, hne]
  | cons kv o ih =>
    have : List.append (kv :: o) [(k, v)] = kv :: List.append o [(k, v)] := rfl
    rw [this, getProp_cons, getProp_cons, ih]

theorem getProp_setProp_self (o : Obj) (k : String) (v : JSVal) :
    getProp (setProp o k v) k = v := by
  unfold setProp
  cases h : hasKey o k
  · simp only [Bool.false_eq_true, if_false]
    exact getProp_append_single_self o k v h
  · simp only [if_true]
    exact getProp_upd_self o k v h

theorem getProp_setProp_ne (o : Obj) (k k' : String) (v : JSVal) (h : k' ≠ k) :
    getProp (setProp o k v) k' = getProp o k' := by
  unfold setProp
  cases hyp : hasKey o k
  · simp only [Bool.false_eq_true, if_false]
    exact getProp_append_single_ne o k k' v h
  · simp only [if_true]
    exact getProp_upd_ne o k k' v h

theorem objKeys_setProp (o : Obj) (k : String) (v : JSVal) :
    objKeys (setProp o k v)
      = if hasKey o k then objKeys o else objKeys o ++ [k] := by
  unfold setProp
  cases h : hasKey o k
  · simp only [Bool.false_eq_true, if_false]
    simp [objKeys]
  · simp only [if_true]
    exact objKeys_map_upd o k v

theorem hasKey_setProp_self (o : Obj) (k : String) (v : JSVal) :
    hasKey (setProp o k v) k = true := by
  rw [hasKey_eq_mem, objKeys_setProp]
  cases h : hasKey o k
  · simp
  · simp only [if_true]
    exact (hasKey_eq_mem o k).mp h

theorem hasKey_setProp_ne (o : Obj) (k k' : String) (v : JSVal) (h : k' ≠ k) :
    hasKey (setProp o k v) k' = hasKey o k' := by
  cases h2 : hasKey o k'
  · cases h3 : hasKey (setProp o k v) k'
    · rfl
    · exfalso
      have hmem := (hasKey_eq_mem _ k').mp h3
      rw [objKeys_setProp] at hmem
      cases hk : hasKey o k <;> rw [hk] at hmem
      · simp only [Bool.false_eq_true, if_false, List.mem_append,
          List.mem_singleton] at hmem
        rcases hmem with hmem | hmem
        · rw [(hasKey_eq_mem o k').mpr hmem] at h2
          exact Bool.noConfusion h2
        · exact h hmem
      · simp only [if_true] at hmem
        rw [(hasKey_eq_mem o k').mpr hmem] at h2
        exact Bool.noConfusion h2
  · cases h3 : hasKey (setProp o k v) k'
    · exfalso
      have hmem := (hasKey_eq_mem o k').mp h2
      have hmem2 : k' ∈ objKeys (setProp o k v) := by
        rw [objKeys_setProp]
        cases hk : hasKey o k <;> simp [hmem]
      rw [(hasKey_eq_mem _ k').mpr hmem2] at h3
      exact Bool.noConfusion h3
    · rfl

theorem hasKey_setProp_mono (o : Obj) (k k' : String) (v : JSVal)
    (h : hasKey o k' = true) : hasKey (setProp o k v) k' = true := by
  by_cases hkk : k' = k
  · subst hkk
    exact hasKey_setProp_self o k' v
  · rw [hasKey_setProp_ne o k k' v hkk]
    exact h

theorem nodup_objKeys_setProp (o : Obj) (k : String) (v : JSVal)
    (h : (objKeys o).Nodup) : (objKeys (setProp o k v)).Nodup := by
  rw [objKeys_setProp]
  cases hk : hasKey o k
  · simp only [Bool.false_eq_true, if_false]
    rw [List.nodup_append]
    refine ⟨h, List.nodup_singleton k, ?_⟩
    intro a ha hb
    rw [List.mem_singleton] at hb
    subst hb
    have := (hasKey_eq_mem o a).mpr ha
    rw [this] at hk
    cases hk
  · simpa using h

theorem getProp_eq_undef_of_not_hasKey (o : Obj) (k : String)
    (h : hasKey o k = false) : getProp o k = .undefined := by
  induction o with
  | nil => rfl
  | cons kv o ih =>
    rw [hasKey_cons, Bool.or_eq_false_iff] at h
    rw [getProp_cons, h.1, if_neg (by simp)]
    exact ih h.2

theorem hasKey_of_getProp_ne_undef (o : Obj) (k : String)
    (h : getProp o k ≠ .undefined) : hasKey o k = true := by
  cases hk : hasKey o k
  · exact absurd (getProp_eq_undef_of_not_hasKey o k hk) h
  · rfl

/-! ### Lookup lemmas -/

theorem lookupKey_cons {α : Type} (kv : String × α) (l : List (String × α)) (k : String) :
    Model.lookupKey (kv :: l) k
      = if kv.1 == k then some kv.2 else Model.lookupKey l k := by
  simp only [Model.lookupKey, List.find?]
  cases h : kv.1 == k <;> simp [h]

theorem lookupKey_isSome_of_mem {α : Type} {l : List (String × α)} {k : String} {v : α}
    (h : (k, v) ∈ l) : (Model.lookupKey l k).isSome = true := by
  induction l with
  | nil => cases h
  | cons kv l ih =>
    rw [List.mem_cons] at h
    rw [lookupKey_cons]
    cases hk : kv.1 == k
    · simp only [Bool.false_eq_true, if_false]
      rcases h with h | h
      · rw [← h] at hk
        simp at hk
      · exact ih h
    · simp

theorem mem_of_lookupKey_eq_some {α : Type} {l : List (String × α)} {k : String} {v : α}
    (h : Model.lookupKey l k = some v) : (k, v) ∈ l := by
  induction l with
  | nil => exact Option.noConfusion h
  | cons kv l ih =>
    rw [lookupKey_cons] at h
    cases hk : kv.1 == k <;> rw [hk] at h
    · simp only [Bool.false_eq_true, if_false] at h
      exact List.mem_cons_of_mem kv (ih h)
    · simp only [if_true, Option.some.injEq] at h
      rw [beq_iff_eq] at hk
      have : kv = (k, v) := by
        cases kv
        simp only [Prod.mk.injEq]
        exact ⟨hk, h⟩
      rw [← this]
      exact List.mem_cons_self kv l

theorem lookupKey_eq_some_of_mem_nodup {α : Type} {l : List (String × α)}
    (hnd : (List.map Prod.fst l).Nodup) {k : String} {v : α} (h : (k, v) ∈ l) :
    Model.lookupKey l k = some v := by
  induction l with
  | nil => cases h
  | cons kv l ih =>
    rw [List.map_cons, List.nodup_cons] at hnd
    rw [List.mem_cons] at h
    rw [lookupKey_cons]
    rcases h with h | h
    · rw [← h]
      simp
    · have hk1 : kv.1 ≠ k := by
        intro he
        exact hnd.1 (he ▸ List.mem_map_of_mem Prod.fst h)
      rw [if_neg (by simpa using hk1)]
      exact ih hnd.2 h

/-! ### Generic lemmas about the constructor's loops -/

theorem foldl_getProp_preserve {β : Type} (keyOf : β → String) (body : Obj → β → Obj)
    (p : String) :
    ∀ (xs : List β) (acc : Obj),
      (∀ acc' x, x ∈ xs → body acc' x = acc' ∨ ∃ v, body acc' x = setProp acc' (keyOf x) v) →
      p ∉ List.map keyOf xs →
      getProp (List.foldl body acc xs) p = getProp acc p := by
  intro xs
  induction xs with
  | nil => intro acc _ _; rfl
  | cons x xs ih =>
    intro acc hbody hp
    rw [List.map_cons, List.mem_cons] at hp
    push_neg at hp
    rw [List.foldl_cons]
    rw [ih _ (fun acc' y hy => hbody acc' y (List.mem_cons_of_mem x hy)) hp.2]
    rcases hbody acc x (List.mem_cons_self x xs) with h | ⟨v, h⟩
    · rw [h]
    · rw [h, getProp_setProp_ne _ _ _ _ hp.1]

theorem foldl_hasKey_mono_of_writes {β : Type} (body : Obj → β → Obj) (p : String) :
    ∀ (xs : List β) (acc : Obj),
      (∀ acc' x, x ∈ xs → body acc' x = acc' ∨ ∃ k v, body acc' x = setProp acc' k v) →
      hasKey acc p = true → hasKey (List.foldl body acc xs) p = true := by
  intro xs
  induction xs with
  | nil => intro acc _ h; exact h
  | cons x xs ih =>
    intro acc hbody h
    rw [List.foldl_cons]
    refine ih _ (fun acc' y hy => hbody acc' y (List.mem_cons_of_mem x hy)) ?_
    rcases hbody acc x (List.mem_cons_self x xs) with hb | ⟨k, v, hb⟩
    · rw [hb]; exact h
    · rw [hb]; exact hasKey_setProp_mono acc k p v h

theorem hasKey_setProp_cases {o : Obj} {k p : String} {v : JSVal}
    (h : hasKey (setProp o k v) p = true) : p = k ∨ hasKey o p = true := by
  by_cases hp : p = k
  · exact Or.inl hp
  · rw [hasKey_setProp_ne o k p v hp] at h
    exact Or.inr h

theorem foldl_hasKey_sources {β : Type} (Q : String → Prop) (body : Obj → β → Obj) :
    ∀ (xs : List β) (acc : Obj),
      (∀ acc' x, x ∈ xs →
        body acc' x = acc' ∨ ∃ k v, Q k ∧ body acc' x = setProp acc' k v) →
      ∀ p, hasKey (List.foldl body acc xs) p = true → hasKey acc p = true ∨ Q p := by
  intro xs
  induction xs with
  | nil => intro acc _ p h; exact Or.inl h
  | cons x xs ih =>
    intro acc hbody p h
    rw [List.foldl_cons] at h
    rcases ih _ (fun acc' y hy => hbody acc' y (List.mem_cons_of_mem x hy)) p h with h2 | h2
    · rcases hbody acc x (List.mem_cons_self x xs) with hb | ⟨k, v, hq, hb⟩
      · rw [hb] at h2; exact Or.inl h2
      · rw [hb] at h2
        rcases hasKey_setProp_cases h2 with he | he
        · exact Or.inr (he ▸ hq)
        · exact Or.inl he
    · exact Or.inr h2

theorem foldl_nodup_keys {β : Type} (body : Obj → β → Obj) :
    ∀ (xs : List β) (acc : Obj),
      (∀ acc' x, x ∈ xs → body acc' x = acc' ∨ ∃ k v, body acc' x = setProp acc' k v) →
      (objKeys acc).Nodup → (objKeys (List.foldl body acc xs)).Nodup := by
  intro xs
  induction xs with
  | nil => intro acc _ h; exact h
  | cons x xs ih =>
    intro acc hbody h
    rw [List.foldl_cons]
    refine ih _ (fun acc' y hy => hbody acc' y (List.mem_cons_of_mem x hy)) ?_
    rcases hbody acc x (List.mem_cons_self x xs) with hb | ⟨k, v, hb⟩
    · rw [hb]; exact h
    · rw [hb]; exact nodup_objKeys_setProp acc k v h

/-! ### Case analyses of the individual loop bodies -/

theorem assignStep_cases (S : Model.Schema) (data acc : Obj) (key : String) :
    Model.assignStep S data acc key = acc
    ∨ ∃ t, Model.lookupKey S.PROPERTIES (Model.resolveAlias S.API_ALIASES key) = some t
        ∧ Model.assignStep S data acc key
            = setProp acc (Model.resolveAlias S.API_ALIASES key) (t (getProp data key)) := by
  unfold Model.assignStep
  cases hd : (Model.lookupKey S.DERIVED_PROPERTIES key).isSome
  · rw [if_neg (by simp [hd])]
    cases hp : Model.lookupKey S.PROPERTIES (Model.resolveAlias S.API_ALIASES key) with
    | none => left; simp only [hp]
    | some t => right; exact ⟨t, rfl, by simp only [hp]⟩
  · left
    rw [if_pos (by simp [hd])]

theorem fillStep_cases (acc : Obj) (pt : String × (JSVal → JSVal)) :
    Model.fillStep acc pt = acc
    ∨ (getProp acc pt.1 = .undefined
        ∧ Model.fillStep acc pt = setProp acc pt.1 (pt.2 .undefined)) := by
  unfold Model.fillStep
  cases hg : getProp acc pt.1
  case undefined => exact Or.inr ⟨rfl, rfl⟩
  all_goals exact Or.inl rfl

theorem derivedStep_cases (S : Model.Schema) (data acc : Obj) (dk : String × (Obj → JSVal)) :
    Model.derivedStep S data acc dk = acc
    ∨ ∃ t, Model.lookupKey S.PROPERTIES dk.1 = some t
        ∧ Model.derivedStep S data acc dk = setProp acc dk.1 (t (dk.2 data)) := by
  unfold Model.derivedStep
  cases hp : Model.lookupKey S.PROPERTIES dk.1 with
  | none => exact Or.inl rfl
  | some t => exact Or.inr ⟨t, rfl, rfl⟩

theorem jsonStep_cases (S : Model.Schema) (this acc : Obj) (key : String) :
    Model.jsonStep S this acc key = acc
    ∨ ((Model.lookupKey S.PROPERTIES key).isSome = true
        ∧ Model.jsonStep S this acc key = setProp acc key (getProp this key)) := by
  unfold Model.jsonStep
  cases hp : (Model.lookupKey S.PROPERTIES key).isSome
  · rw [if_neg (by simp [hp])]
    exact Or.inl rfl
  · rw [if_pos (by simp [hp])]
    exact Or.inr ⟨rfl, rfl⟩

/-! ### The default-fill loop -/

theorem fillStep_split (acc : Obj) (pt : String × (JSVal → JSVal)) :
    (getProp acc pt.1 ≠ .undefined ∧ Model.fillStep acc pt = acc)
    ∨ (getProp acc pt.1 = .undefined
        ∧ Model.fillStep acc pt = setProp acc pt.1 (pt.2 .undefined)) := by
  unfold Model.fillStep
  cases hg : getProp acc pt.1
  case undefined => exact Or.inr ⟨rfl, rfl⟩
  all_goals exact Or.inl ⟨fun hh => JSVal.noConfusion hh, rfl⟩

theorem fillStep_writes (acc : Obj) (pt : String × (JSVal → JSVal)) :
    Model.fillStep acc pt = acc
    ∨ ∃ v, Model.fillStep acc pt = setProp acc pt.1 v := by
  rcases fillStep_split acc pt with ⟨_, h⟩ | ⟨_, h⟩
  · exact Or.inl h
  · exact Or.inr ⟨pt.2 .undefined, h⟩

theorem fill_foldl_preserve (p : String) :
    ∀ (ps : List (String × (JSVal → JSVal))) (acc : Obj),
      getProp acc p ≠ .undefined →
      getProp (List.foldl Model.fillStep acc ps) p = getProp acc p := by
  intro ps
  induction ps with
  | nil => intro acc _; rfl
  | cons pt ps ih =>
    intro acc h
    rw [List.foldl_cons]
    rcases fillStep_split acc pt with ⟨_, hb⟩ | ⟨hg, hb⟩
    · rw [ih _ (by rw [hb]; exact h), hb]
    · have hne : p ≠ pt.1 := fun he => h (he ▸ hg)
      have h2 : getProp (Model.fillStep acc pt) p = getProp acc p := by
        rw [hb, getProp_setProp_ne _ _ _ _ hne]
      rw [ih _ (by rw [h2]; exact h), h2]

theorem fill_foldl_hasKey (p : String) :
    ∀ (ps : List (String × (JSVal → JSVal))) (acc : Obj),
      p ∈ List.map Prod.fst ps →
      hasKey (List.foldl Model.fillStep acc ps) p = true := by
  intro ps
  induction ps with
  | nil => intro acc h; cases h
  | cons pt ps ih =>
    intro acc h
    rw [List.map_cons, List.mem_cons] at h
    rw [List.foldl_cons]
    by_cases hp : p ∈ List.map Prod.fst ps
    · exact ih _ hp
    · have hpe : p = pt.1 := by
        rcases h with h | h
        · exact h
        · exact absurd h hp
      have hk : hasKey (Model.fillStep acc pt) p = true := by
        rcases fillStep_split acc pt with ⟨hg, hb⟩ | ⟨_, hb⟩
        · rw [hb, hpe]
          exact hasKey_of_getProp_ne_undef acc pt.1 hg
        · rw [hb, hpe]
          exact hasKey_setProp_self acc pt.1 (pt.2 .undefined)
      exact foldl_hasKey_mono_of_writes Model.fillStep p ps _
        (fun acc' y _ =>
          (fillStep_writes acc' y).imp id (fun hv => ⟨y.1, hv⟩)) hk

theorem fill_foldl_assign :
    ∀ (ps : List (String × (JSVal → JSVal))) (acc : Obj) (p : String)
      (t : JSVal → JSVal),
      (p, t) ∈ ps → (List.map Prod.fst ps).Nodup → getProp acc p = .undefined →
      getProp (List.foldl Model.fillStep acc ps) p = t .undefined := by
  intro ps
  induction ps with
  | nil => intro acc p t h _ _; cases h
  | cons pt ps ih =>
    intro acc p t hmem hnd hu
    rw [List.map_cons, List.nodup_cons] at hnd
    rw [List.mem_cons] at hmem
    rw [List.foldl_cons]
    rcases hmem with he | hmem
    · have hp1 : pt.1 = p := by rw [← he]
      have hp2 : pt.2 = t := by rw [← he]
      have hnp : p ∉ List.map Prod.fst ps := hp1 ▸ hnd.1
      rcases fillStep_split acc pt with ⟨hne, _⟩ | ⟨_, hb⟩
      · exact absurd (hp1 ▸ hu) hne
      · rw [foldl_getProp_preserve Prod.fst Model.fillStep p ps _
            (fun acc' y _ => fillStep_writes acc' y) hnp]
        rw [hb, hp1, hp2, getProp_setProp_self]
    · have hne : pt.1 ≠ p :=
        fun he2 => hnd.1 (he2 ▸ List.mem_map_of_mem Prod.fst hmem)
      have h2 : getProp (Model.fillStep acc pt) p = .undefined := by
        rcases fillStep_split acc pt with ⟨_, hb⟩ | ⟨_, hb⟩ <;> rw [hb]
        · exact hu
        · rw [getProp_setProp_ne _ _ _ _ (fun hh => hne hh.symm)]
          exact hu
      exact ih _ p t hmem hnd.2 h2

/-! ### The derived-properties loop -/

theorem derivedStep_writes (S : Model.Schema) (data acc : Obj)
    (dk : String × (Obj → JSVal)) :
    Model.derivedStep S data acc dk = acc
    ∨ ∃ v, Model.derivedStep S data acc dk = setProp acc dk.1 v := by
  rcases derivedStep_cases S data acc dk with h | ⟨t, _, h⟩
  · exact Or.inl h
  · exact Or.inr ⟨t (dk.2 data), h⟩

theorem derived_foldl_shape (S : Model.Schema) (data : Obj) (p : String)
    (t : JSVal → JSVal) (hp : Model.lookupKey S.PROPERTIES p = some t) :
    ∀ (ds : List (String × (Obj → JSVal))) (acc : Obj),
      (∃ v, getProp acc p = t v) →
      ∃ v, getProp (List.foldl (Model.derivedStep S data) acc ds) p = t v := by
  intro ds
  induction ds with
  | nil => intro acc h; exact h
  | cons dk ds ih =>
    intro acc h
    rw [List.foldl_cons]
    refine ih _ ?_
    rcases derivedStep_cases S data acc dk with hb | ⟨t', hp', hb⟩
    · rw [hb]; exact h
    · rw [hb]
      by_cases he : p = dk.1
      · subst he
        rw [hp] at hp'
        injection hp' with ht
        subst ht
        rw [getProp_setProp_self]
        exact ⟨dk.2 data, rfl⟩
      · rw [getProp_setProp_ne _ _ _ _ he]
        exact h

/-! ### The positional-assignment loop -/

theorem assignStep_writes (S : Model.Schema) (data acc : Obj) (key : String) :
    Model.assignStep S data acc key = acc
    ∨ ∃ v, Model.assignStep S data acc key
        = setProp acc (Model.resolveAlias S.API_ALIASES key) v := by
  rcases assignStep_cases S data acc key with h | ⟨t, _, h⟩
  · exact Or.inl h
  · exact Or.inr ⟨t (getProp data key), h⟩

theorem assign_foldl_shape (S : Model.Schema) (data : Obj) (p : String)
    (t : JSVal → JSVal) (hp : Model.lookupKey S.PROPERTIES p = some t) :
    ∀ (ks : List String) (acc : Obj),
      (getProp acc p = .undefined ∨ ∃ v, getProp acc p = t v) →
      (getProp (List.foldl (Model.assignStep S data) acc ks) p = .undefined
        ∨ ∃ v, getProp (List.foldl (Model.assignStep S data) acc ks) p = t v) := by
  intro ks
  induction ks with
  | nil => intro acc h; exact h
  | cons k ks ih =>
    intro acc h
    rw [List.foldl_cons]
    refine ih _ ?_
    rcases assignStep_cases S data acc k with hb | ⟨t', hp', hb⟩
    · rw [hb]; exact h
    · rw [hb]
      by_cases he : p = Model.resolveAlias S.API_ALIASES k
      · rw [← he] at hp'
        rw [hp] at hp'
        injection hp' with ht
        subst ht
        rw [← he, getProp_setProp_self]
        exact Or.inr ⟨getProp data k, rfl⟩
      · rw [getProp_setProp_ne _ _ _ _ he]
        exact h

/-! ### Identity fields of a constructed instance -/

theorem toString_lt17_ne_empty : ∀ n < 17, toString n ≠ "" := by decide

theorem truthy_fakeUUID (r : Nat) : truthy (Model.fakeUUID r) = true := by
  unfold Model.fakeUUID truthy
  rw [bne_iff_ne]
  exact toString_lt17_ne_empty (r % 17) (Nat.mod_lt r (by norm_num))

theorem truthy_makeUUID (data : Obj) (r : Nat) :
    truthy (Model.makeUUID data r) = true := by
  unfold Model.makeUUID
  cases h1 : truthy (getProp data "uuid")
  · rw [if_neg (show ¬(false = true) by simp)]
    cases h2 : truthy (getProp data "id")
    · rw [if_neg (show ¬(false = true) by simp)]
      exact truthy_fakeUUID r
    · rw [if_pos rfl]
      exact h2
  · rw [if_pos rfl]
    exact h1

theorem construct_getProp_uuid (S : Model.Schema) (data : Obj) (r1 r2 : Nat) :
    getProp (Model.construct S data r1 r2) "uuid" = Model.makeUUID data r1 := by
  unfold Model.construct
  rw [getProp_setProp_ne _ _ _ _ (by decide), getProp_setProp_ne _ _ _ _ (by decide),
    getProp_setProp_self]

theorem construct_getProp_paginationId (S : Model.Schema) (data : Obj) (r1 r2 : Nat) :
    getProp (Model.construct S data r1 r2) "paginationId" = Model.makeUUID data r1 := by
  unfold Model.construct
  rw [getProp_setProp_ne _ _ _ _ (by decide), getProp_setProp_self]
  unfold Model.makePaginationId
  rw [if_pos (truthy_makeUUID data r1)]

theorem construct_getProp_type (S : Model.Schema) (data : Obj) (r1 r2 : Nat) :
    getProp (Model.construct S data r1 r2) "type" = S.type := by
  unfold Model.construct
  rw [getProp_setProp_self]

/-! ### Shape and keys of a constructed instance -/

theorem construct_prop_shape (S : Model.Schema) (data : Obj) (r1 r2 : Nat)
    (hnd : (List.map Prod.fst S.PROPERTIES).Nodup)
    (p : String) (t : JSVal → JSVal)
    (hp : Model.lookupKey S.PROPERTIES p = some t)
    (h1 : p ≠ "uuid") (h2 : p ≠ "paginationId") (h3 : p ≠ "type") :
    (∃ v, getProp (Model.construct S data r1 r2) p = t v)
      ∧ hasKey (Model.construct S data r1 r2) p = true := by
  have hmem : (p, t) ∈ S.PROPERTIES := mem_of_lookupKey_eq_some hp
  have hpk : p ∈ List.map Prod.fst S.PROPERTIES := List.mem_map_of_mem Prod.fst hmem
  unfold Model.construct
  constructor
  · rw [getProp_setProp_ne _ _ _ _ h3, getProp_setProp_ne _ _ _ _ h2,
      getProp_setProp_ne _ _ _ _ h1]
    unfold Model.applyDerived
    apply derived_foldl_shape S data p t hp
    unfold Model.defaultFill
    rcases assign_foldl_shape S data p t hp (objKeys data) ([] : Obj) (Or.inl rfl)
      with hsh | ⟨v, hsh⟩
    · rw [fill_foldl_assign S.PROPERTIES _ p t hmem hnd
        (by unfold Model.assignFromData; exact hsh)]
      exact ⟨.undefined, rfl⟩
    · by_cases hu : getProp (Model.assignFromData S data) p = .undefined
      · rw [fill_foldl_assign S.PROPERTIES _ p t hmem hnd hu]
        exact ⟨.undefined, rfl⟩
      · rw [fill_foldl_preserve p S.PROPERTIES _ hu]
        exact ⟨v, by unfold Model.assignFromData; exact hsh⟩
  · apply hasKey_setProp_mono
    apply hasKey_setProp_mono
    apply hasKey_setProp_mono
    unfold Model.applyDerived
    apply foldl_hasKey_mono_of_writes (Model.derivedStep S data) p _ _
      (fun acc' y _ => (derivedStep_writes S data acc' y).imp id (fun hv => ⟨y.1, hv⟩))
    unfold Model.defaultFill
    exact fill_foldl_hasKey p S.PROPERTIES _ hpk

theorem construct_identity_hasKey (S : Model.Schema) (data : Obj) (r1 r2 : Nat) :
    hasKey (Model.construct S data r1 r2) "uuid" = true
    ∧ hasKey (Model.construct S data r1 r2) "paginationId" = true
    ∧ hasKey (Model.construct S data r1 r2) "type" = true := by
  unfold Model.construct
  refine ⟨?_, ?_, ?_⟩
  · apply hasKey_setProp_mono
    apply hasKey_setProp_mono
    exact hasKey_setProp_self _ _ _
  · apply hasKey_setProp_mono
    exact hasKey_setProp_self _ _ _
  · exact hasKey_setProp_self _ _ _

theorem nodup_objKeys_construct (S : Model.Schema) (data : Obj) (r1 r2 : Nat) :
    (objKeys (Model.construct S data r1 r2)).Nodup := by
  unfold Model.construct
  apply nodup_objKeys_setProp
  apply nodup_objKeys_setProp
  apply nodup_objKeys_setProp
  unfold Model.applyDerived
  apply foldl_nodup_keys _ _ _
    (fun acc' y _ => (derivedStep_writes S data acc' y).imp id (fun hv => ⟨y.1, hv⟩))
  unfold Model.defaultFill
  apply foldl_nodup_keys _ _ _
    (fun acc' y _ => (fillStep_writes acc' y).imp id (fun hv => ⟨y.1, hv⟩))
  unfold Model.assignFromData
  apply foldl_nodup_keys _ _ _
    (fun acc' y _ => (assignStep_writes S data acc' y).imp id
      (fun hv => ⟨Model.resolveAlias S.API_ALIASES y, hv⟩))
  exact List.nodup_nil

theorem construct_hasKey_sources (S : Model.Schema) (data : Obj) (r1 r2 : Nat)
    (k : String) (h : hasKey (Model.construct S data r1 r2) k = true) :
    (Model.lookupKey S.PROPERTIES k).isSome = true
      ∨ k = "uuid" ∨ k = "paginationId" ∨ k = "type" := by
  unfold Model.construct at h
  rcases hasKey_setProp_cases h with he | h
  · exact Or.inr (Or.inr (Or.inr he))
  rcases hasKey_setProp_cases h with he | h
  · exact Or.inr (Or.inr (Or.inl he))
  rcases hasKey_setProp_cases h with he | h
  · exact Or.inr (Or.inl he)
  left
  unfold Model.applyDerived at h
  rcases foldl_hasKey_sources (fun k => (Model.lookupKey S.PROPERTIES k).isSome = true)
      (Model.derivedStep S data) _ _
      (by
        intro acc' y _
        rcases derivedStep_cases S data acc' y with hb | ⟨t, hpt, hb⟩
        · exact Or.inl hb
        · exact Or.inr ⟨y.1, t (y.2 data),
            show (Model.lookupKey S.PROPERTIES y.1).isSome = true by
              rw [hpt]; rfl, hb⟩) k h
    with h | h
  · unfold Model.defaultFill at h
    rcases foldl_hasKey_sources (fun k => (Model.lookupKey S.PROPERTIES k).isSome = true)
        Model.fillStep _ _
        (fun acc' y hy => (fillStep_split acc' y).imp (fun hv => hv.2)
          (fun hv => ⟨y.1, y.2 .undefined,
            lookupKey_isSome_of_mem (show (y.1, y.2) ∈ S.PROPERTIES from hy), hv.2⟩)) k h
      with h | h
    · unfold Model.assignFromData at h
      rcases foldl_hasKey_sources (fun k => (Model.lookupKey S.PROPERTIES k).isSome = true)
          (Model.assignStep S data) _ _
          (by
            intro acc' y _
            rcases assignStep_cases S data acc' y with hb | ⟨t, hpt, hb⟩
            · exact Or.inl hb
            · exact Or.inr ⟨Model.resolveAlias S.API_ALIASES y, t (getProp data y),
                show (Model.lookupKey S.PROPERTIES
                    (Model.resolveAlias S.API_ALIASES y)).isSome = true by
                  rw [hpt]; rfl, hb⟩) k h
        with h | h
      · exact Bool.noConfusion h
      · exact h
    · exact h
  · exact h

/-! ### Characterization of `toJSON` -/

theorem jsonStep_writes (S : Model.Schema) (inst acc : Obj) (key : String) :
    Model.jsonStep S inst acc key = acc
    ∨ ∃ v, Model.jsonStep S inst acc key = setProp acc key v := by
  rcases jsonStep_cases S inst acc key with h | ⟨_, h⟩
  · exact Or.inl h
  · exact Or.inr ⟨getProp inst key, h⟩

theorem json_foldl_exact (S : Model.Schema) (inst : Obj) (p : String)
    (hp : (Model.lookupKey S.PROPERTIES p).isSome = true) :
    ∀ (ks : List String) (acc : Obj), ks.Nodup → p ∈ ks →
      getProp (List.foldl (Model.jsonStep S inst) acc ks) p = getProp inst p
        ∧ hasKey (List.foldl (Model.jsonStep S inst) acc ks) p = true := by
  intro ks
  induction ks with
  | nil => intro acc _ h; cases h
  | cons k ks ih =>
    intro acc hnd hmem
    rw [List.nodup_cons] at hnd
    rw [List.mem_cons] at hmem
    rw [List.foldl_cons]
    by_cases hin : p ∈ ks
    · exact ih _ hnd.2 hin
    · have he : p = k := by
        rcases hmem with h | h
        · exact h
        · exact absurd h hin
      subst he
      have hstep : Model.jsonStep S inst acc p = setProp acc p (getProp inst p) := by
        unfold Model.jsonStep
        rw [if_pos hp]
      constructor
      · rw [foldl_getProp_preserve (fun k => k) (Model.jsonStep S inst) p ks _
          (fun acc' y _ => jsonStep_writes S inst acc' y) (by simpa using hin)]
        rw [hstep, getProp_setProp_self]
      · refine foldl_hasKey_mono_of_writes (Model.jsonStep S inst) p ks _
          (fun acc' y _ =>
            (jsonStep_writes S inst acc' y).imp id (fun hv => ⟨y, hv⟩)) ?_
        rw [hstep]
        exact hasKey_setProp_self acc p (getProp inst p)

theorem toJSON_getProp_uuid (S : Model.Schema) (inst : Obj) :
    getProp (Model.toJSON S inst) "uuid" = getProp inst "uuid" := by
  unfold Model.toJSON
  rw [getProp_setProp_ne _ _ _ _ (by decide), getProp_setProp_self]

theorem toJSON_getProp_type (S : Model.Schema) (inst : Obj) :
    getProp (Model.toJSON S inst) "type" = getProp inst "type" := by
  unfold Model.toJSON
  rw [getProp_setProp_self]

theorem toJSON_getProp_field (S : Model.Schema) (inst : Obj) (p : String)
    (hp : (Model.lookupKey S.PROPERTIES p).isSome = true)
    (h1 : p ≠ "uuid") (h3 : p ≠ "type")
    (hnd : (objKeys inst).Nodup) (hkey : hasKey inst p = true) :
    getProp (Model.toJSON S inst) p = getProp inst p
      ∧ hasKey (Model.toJSON S inst) p = true := by
  unfold Model.toJSON
  have hj := json_foldl_exact S inst p hp (objKeys inst) ([] : Obj) hnd
    ((hasKey_eq_mem inst p).mp hkey)
  constructor
  · rw [getProp_setProp_ne _ _ _ _ h3, getProp_setProp_ne _ _ _ _ h1]
    exact hj.1
  · apply hasKey_setProp_mono
    apply hasKey_setProp_mono
    exact hj.2

theorem toJSON_hasKey_sources (S : Model.Schema) (inst : Obj) (k : String)
    (h : hasKey (Model.toJSON S inst) k = true) :
    (Model.lookupKey S.PROPERTIES k).isSome = true ∨ k = "uuid" ∨ k = "type" := by
  unfold Model.toJSON at h
  rcases hasKey_setProp_cases h with he | h
  · exact Or.inr (Or.inr he)
  rcases hasKey_setProp_cases h with he | h
  · exact Or.inr (Or.inl he)
  left
  rcases foldl_hasKey_sources (fun k => (Model.lookupKey S.PROPERTIES k).isSome = true)
      (Model.jsonStep S inst) _ _
      (by
        intro acc' y _
        rcases jsonStep_cases S inst acc' y with hb | ⟨hq, hb⟩
        · exact Or.inl hb
        · exact Or.inr ⟨y, getProp inst y, hq, hb⟩) k h
    with h | h
  · exact Bool.noConfusion h
  · exact h

theorem nodup_objKeys_toJSON (S : Model.Schema) (inst : Obj) :
    (objKeys (Model.toJSON S inst)).Nodup := by
  unfold Model.toJSON
  apply nodup_objKeys_setProp
  apply nodup_objKeys_setProp
  apply foldl_nodup_keys _ _ _
    (fun acc' y _ => (jsonStep_writes S inst acc' y).imp id (fun hv => ⟨y, hv⟩))
  exact List.nodup_nil

/-! ### The assignment loop on an alias-free, derived-free key list -/

theorem assign_foldl_exact (S : Model.Schema) (data : Obj) (p : String)
    (t : JSVal → JSVal) (hp : Model.lookupKey S.PROPERTIES p = some t) :
    ∀ (ks : List String) (acc : Obj), ks.Nodup →
      (∀ k ∈ ks, Model.lookupKey S.DERIVED_PROPERTIES k = none
        ∧ Model.resolveAlias S.API_ALIASES k = k) →
      p ∈ ks →
      getProp (List.foldl (Model.assignStep S data) acc ks) p
        = t (getProp data p) := by
  intro ks
  induction ks with
  | nil => intro acc _ _ h; cases h
  | cons k ks ih =>
    intro acc hnd hnice hmem
    rw [List.nodup_cons] at hnd
    rw [List.mem_cons] at hmem
    rw [List.foldl_cons]
    by_cases hin : p ∈ ks
    · exact ih _ hnd.2 (fun k' hk' => hnice k' (List.mem_cons_of_mem k hk')) hin
    · have he : p = k := by
        rcases hmem with h | h
        · exact h
        · exact absurd h hin
      subst he
      have h1 := (hnice p (List.mem_cons_self p ks)).1
      have h2 := (hnice p (List.mem_cons_self p ks)).2
      have hstep : Model.assignStep S data acc p
          = setProp acc p (t (getProp data p)) := by
        unfold Model.assignStep
        simp only [h1, Option.isSome_none, Bool.false_eq_true, if_false, h2, hp]
      rw [foldl_getProp_preserve (Model.resolveAlias S.API_ALIASES)
        (Model.assignStep S data) p ks _
        (fun acc' y _ => assignStep_writes S data acc' y) ?_]
      · rw [hstep, getProp_setProp_self]
      · intro hmm
        rw [List.mem_map] at hmm
        rcases hmm with ⟨y, hy, hyy⟩
        rw [(hnice y (List.mem_cons_of_mem p hy)).2] at hyy
        exact hin (hyy ▸ hy)

/-- A key that names a declared property, or the identity keys `uuid` and
`type`, is never remapped by an alias map whose sources avoid those
names. -/
theorem resolveAlias_id_of_sources (S : Model.Schema)
    (hAlias : ∀ ab ∈ S.API_ALIASES,
      Model.lookupKey S.PROPERTIES ab.1 = none ∧ ab.1 ≠ "uuid" ∧ ab.1 ≠ "type")
    (k : String)
    (hk : (Model.lookupKey S.PROPERTIES k).isSome = true ∨ k = "uuid" ∨ k = "type") :
    Model.resolveAlias S.API_ALIASES k = k := by
  unfold Model.resolveAlias
  cases hl : Model.lookupKey S.API_ALIASES k with
  | none => rfl
  | some a =>
    exfalso
    have hmem := mem_of_lookupKey_eq_some hl
    have := hAlias (k, a) hmem
    rcases hk with hk | hk | hk
    · rw [this.1] at hk
      exact Bool.noConfusion hk
    · exact this.2.1 hk
    · exact this.2.2 hk

/-! ### Further helpers for the round-trip theorem -/

theorem makeUUID_of_truthy (d : Obj) (r : Nat)
    (h : truthy (getProp d "uuid") = true) :
    Model.makeUUID d r = getProp d "uuid" := by
  unfold Model.makeUUID
  rw [if_pos h]

theorem construct_getProp_nonid (S : Model.Schema) (data : Obj) (r1 r2 : Nat)
    (p : String) (h1 : p ≠ "uuid") (h2 : p ≠ "paginationId") (h3 : p ≠ "type") :
    getProp (Model.construct S data r1 r2) p
      = getProp (Model.applyDerived S data
          (Model.defaultFill S (Model.assignFromData S data))) p := by
  unfold Model.construct
  rw [getProp_setProp_ne _ _ _ _ h3, getProp_setProp_ne _ _ _ _ h2,
    getProp_setProp_ne _ _ _ _ h1]

/-! ### Idempotence of the registry transformers -/

theorem string_is_str (v : JSVal) : ∃ s, Model.Types.string v = .str s := by
  unfold Model.Types.string
  split
  · exact ⟨jsToString v, rfl⟩
  · exact ⟨"", rfl⟩

theorem string_on_str (s : String) : Model.Types.string (.str s) = .str s := by
  unfold Model.Types.string
  by_cases hs : s = ""
  · subst hs
    rfl
  · rw [if_pos (show truthy (JSVal.str s) = true by simp [truthy, hs])]
    rfl

theorem string_idem (v : JSVal) :
    Model.Types.string (Model.Types.string v) = Model.Types.string v := by
  rcases string_is_str v with ⟨s, hs⟩
  rw [hs]
  exact string_on_str s

theorem strToNumber_num_or_nan (s : String) :
    (∃ n, strToNumber s = .num n) ∨ strToNumber s = .nan := by
  unfold strToNumber
  split
  · exact Or.inl ⟨0, rfl⟩
  · split
    · split
      · exact Or.inl ⟨_, rfl⟩
      · exact Or.inr rfl
    · split
      · exact Or.inl ⟨_, rfl⟩
      · exact Or.inr rfl
    · split
      · exact Or.inl ⟨_, rfl⟩
      · exact Or.inr rfl

theorem jsToNumber_num_or_nan (v : JSVal) :
    (∃ n, jsToNumber v = .num n) ∨ jsToNumber v = .nan := by
  cases v
  case undefined => exact Or.inr rfl
  case null => exact Or.inl ⟨0, rfl⟩
  case bool b =>
    cases b
    · exact Or.inl ⟨0, rfl⟩
    · exact Or.inl ⟨1, rfl⟩
  case num n => exact Or.inl ⟨n, rfl⟩
  case nan => exact Or.inr rfl
  case str s => exact strToNumber_num_or_nan s
  case arr xs => exact strToNumber_num_or_nan _
  case handle n => exact Or.inr rfl

theorem number_eq_jsToNumber (v : JSVal) (h : v ≠ .undefined) :
    Model.Types.number v = jsToNumber v := by
  cases v
  case undefined => exact absurd rfl h
  all_goals rfl

theorem number_idem (v : JSVal) :
    Model.Types.number (Model.Types.number v) = Model.Types.number v := by
  by_cases h : v = .undefined
  · rw [h]
    rfl
  · rw [number_eq_jsToNumber v h]
    rcases jsToNumber_num_or_nan v with ⟨n, hn⟩ | hn <;> rw [hn] <;> rfl

/-- Core of the round-trip argument: under the amended conditions, any
declared property other than the identity fields survives
serialize-then-reconstruct unchanged. -/
theorem roundtrip_field_aux (S : Model.Schema) (data : Obj) (r1 r2 r1' r2' : Nat)
    (hD : S.DERIVED_PROPERTIES = [])
    (hnd : (List.map Prod.fst S.PROPERTIES).Nodup)
    (hIdem : ∀ pt ∈ S.PROPERTIES, ∀ v, pt.2 (pt.2 v) = pt.2 v)
    (hAlias : ∀ ab ∈ S.API_ALIASES,
      Model.lookupKey S.PROPERTIES ab.1 = none ∧ ab.1 ≠ "uuid" ∧ ab.1 ≠ "type")
    (p : String) (t : JSVal → JSVal)
    (ht : Model.lookupKey S.PROPERTIES p = some t)
    (hpu : p ≠ "uuid") (hpp : p ≠ "paginationId") (hpt : p ≠ "type") :
    getProp (Model.construct S (Model.toJSON S (Model.construct S data r1 r2)) r1' r2') p
      = getProp (Model.construct S data r1 r2) p := by
  rcases construct_prop_shape S data r1 r2 hnd p t ht hpu hpp hpt
    with ⟨⟨w, hw⟩, hkeyI⟩
  have hfix : t (getProp (Model.construct S data r1 r2) p)
      = getProp (Model.construct S data r1 r2) p := by
    rw [hw]
    exact hIdem (p, t) (mem_of_lookupKey_eq_some ht) w
  have hpsome : (Model.lookupKey S.PROPERTIES p).isSome = true := by
    rw [ht]
    rfl
  have hJf := toJSON_getProp_field S (Model.construct S data r1 r2) p hpsome hpu hpt
    (nodup_objKeys_construct S data r1 r2) hkeyI
  have hnice : ∀ k ∈ objKeys (Model.toJSON S (Model.construct S data r1 r2)),
      Model.lookupKey S.DERIVED_PROPERTIES k = none
        ∧ Model.resolveAlias S.API_ALIASES k = k := by
    intro k hk
    have hksrc := toJSON_hasKey_sources S (Model.construct S data r1 r2) k
      ((hasKey_eq_mem _ k).mpr hk)
    exact ⟨by rw [hD]; rfl, resolveAlias_id_of_sources S hAlias k hksrc⟩
  have hA : getProp
      (Model.assignFromData S (Model.toJSON S (Model.construct S data r1 r2))) p
      = getProp (Model.construct S data r1 r2) p := by
    unfold Model.assignFromData
    rw [assign_foldl_exact S (Model.toJSON S (Model.construct S data r1 r2)) p t ht
      (objKeys (Model.toJSON S (Model.construct S data r1 r2))) ([] : Obj)
      (nodup_objKeys_toJSON S (Model.construct S data r1 r2)) hnice
      ((hasKey_eq_mem _ p).mp hJf.2)]
    rw [hJf.1, hfix]
  have hF : getProp (Model.defaultFill S
      (Model.assignFromData S (Model.toJSON S (Model.construct S data r1 r2)))) p
      = getProp (Model.construct S data r1 r2) p := by
    by_cases hu : getProp
        (Model.assignFromData S (Model.toJSON S (Model.construct S data r1 r2))) p
        = .undefined
    · have hIu : getProp (Model.construct S data r1 r2) p = .undefined := by
        rw [← hA]
        exact hu
      have hfix' : t .undefined = .undefined := by
        rw [← hIu]
        exact hfix
      unfold Model.defaultFill
      rw [fill_foldl_assign S.PROPERTIES _ p t (mem_of_lookupKey_eq_some ht) hnd hu]
      rw [hfix', hIu]
    · unfold Model.defaultFill
      rw [fill_foldl_preserve p S.PROPERTIES _ hu]
      exact hA
  have hDrv : getProp (Model.applyDerived S
      (Model.toJSON S (Model.construct S data r1 r2))
      (Model.defaultFill S
        (Model.assignFromData S (Model.toJSON S (Model.construct S data r1 r2))))) p
      = getProp (Model.construct S data r1 r2) p := by
    unfold Model.applyDerived
    rw [hD]
    simpa using hF
  rw [construct_getProp_nonid S _ r1' r2' p hpu hpp hpt]
  exact hDrv

/-- **C1** (amended).  The claim as frozen is false: derived fields are
recomputed from the serialized output rather than the original raw input,
so they need not survive the round trip (see the counterexample).  The
amended statement: for a schema with no derived fields, alias sources
disjoint from the declared property names and from `uuid`/`type`, distinct
declared property names, and idempotent field transformers (all registry
transformers are), constructing from `toJSON` of a constructed instance
reproduces every schema-declared field and the `uuid`, `paginationId` and
`type` identity fields, whatever the raw input was. -/
theorem construct_toJSON_roundtrip (S : Model.Schema) (data : Obj)
    (r1 r2 r1' r2' : Nat)
    (hD : S.DERIVED_PROPERTIES = [])
    (hnd : (List.map Prod.fst S.PROPERTIES).Nodup)
    (hIdem : ∀ pt ∈ S.PROPERTIES, ∀ v, pt.2 (pt.2 v) = pt.2 v)
    (hAlias : ∀ ab ∈ S.API_ALIASES,
      Model.lookupKey S.PROPERTIES ab.1 = none ∧ ab.1 ≠ "uuid" ∧ ab.1 ≠ "type") :
    (∀ p, (Model.lookupKey S.PROPERTIES p).isSome = true →
        getProp (Model.construct S (Model.toJSON S (Model.construct S data r1 r2))
            r1' r2') p
          = getProp (Model.construct S data r1 r2) p)
    ∧ getProp (Model.construct S (Model.toJSON S (Model.construct S data r1 r2))
        r1' r2') "uuid"
        = getProp (Model.construct S data r1 r2) "uuid"
    ∧ getProp (Model.construct S (Model.toJSON S (Model.construct S data r1 r2))
        r1' r2') "paginationId"
        = getProp (Model.construct S data r1 r2) "paginationId"
    ∧ getProp (Model.construct S (Model.toJSON S (Model.construct S data r1 r2))
        r1' r2') "type"
        = getProp (Model.construct S data r1 r2) "type" := by
  have htr : truthy
      (getProp (Model.toJSON S (Model.construct S data r1 r2)) "uuid") = true := by
    rw [toJSON_getProp_uuid, construct_getProp_uuid]
    exact truthy_makeUUID data r1
  have hmUJ : Model.makeUUID (Model.toJSON S (Model.construct S data r1 r2)) r1'
      = Model.makeUUID data r1 := by
    rw [makeUUID_of_truthy _ r1' htr, toJSON_getProp_uuid, construct_getProp_uuid]
  have hu : getProp (Model.construct S (Model.toJSON S (Model.construct S data r1 r2))
      r1' r2') "uuid" = getProp (Model.construct S data r1 r2) "uuid" := by
    rw [construct_getProp_uuid, construct_getProp_uuid, hmUJ]
  have hpag : getProp (Model.construct S
      (Model.toJSON S (Model.construct S data r1 r2)) r1' r2') "paginationId"
      = getProp (Model.construct S data r1 r2) "paginationId" := by
    rw [construct_getProp_paginationId, construct_getProp_paginationId, hmUJ]
  have hty : getProp (Model.construct S
      (Model.toJSON S (Model.construct S data r1 r2)) r1' r2') "type"
      = getProp (Model.construct S data r1 r2) "type" := by
    rw [construct_getProp_type, construct_getProp_type]
  refine ⟨?_, hu, hpag, hty⟩
  intro p hp
  rcases Option.isSome_iff_exists.mp hp with ⟨t, ht⟩
  by_cases hpu : p = "uuid"
  · rw [hpu]
    exact hu
  by_cases hpp : p = "paginationId"
  · rw [hpp]
    exact hpag
  by_cases hpt : p = "type"
  · rw [hpt]
    exact hty
  exact roundtrip_field_aux S data r1 r2 r1' r2' hD hnd hIdem hAlias p t ht hpu hpp hpt

/-! ### The derived loop computes exactly `transformer (derivation data)` -/

theorem derived_foldl_exact (S : Model.Schema) (data : Obj) (d : String)
    (f : Obj → JSVal) (t : JSVal → JSVal)
    (ht : Model.lookupKey S.PROPERTIES d = some t) :
    ∀ (ds : List (String × (Obj → JSVal))) (acc : Obj),
      (d, f) ∈ ds → (List.map Prod.fst ds).Nodup →
      getProp (List.foldl (Model.derivedStep S data) acc ds) d = t (f data) := by
  intro ds
  induction ds with
  | nil => intro acc h _; cases h
  | cons dk ds ih =>
    intro acc hmem hnd
    rw [List.map_cons, List.nodup_cons] at hnd
    rw [List.mem_cons] at hmem
    rw [List.foldl_cons]
    rcases hmem with he | hmem
    · have hd1 : dk.1 = d := by rw [← he]
      have hd2 : dk.2 = f := by rw [← he]
      have hstep : Model.derivedStep S data acc dk = setProp acc d (t (f data)) := by
        unfold Model.derivedStep
        simp only [hd1, ht, hd2]
      rw [foldl_getProp_preserve Prod.fst (Model.derivedStep S data) d ds _
        (fun acc' y _ => derivedStep_writes S data acc' y) (hd1 ▸ hnd.1)]
      rw [hstep, getProp_setProp_self]
    · exact ih _ hmem hnd.2

/-! ### The claims -/

/-- C1 counterexample: round-trip idempotence fails as stated.  With the
spec's own derived-field schema (transformer `total: number`, derivation
`raw => raw.a + raw.b`) and raw input a=2, b=3, total=999, uuid="u", the
first construction yields total = 5, but re-constructing from its
serialization recomputes the derivation on the JSON output (which carries
no `a`/`b`), giving `Number(undefined + undefined) = NaN`, not 5. -/
theorem roundtrip_counterexample :
    ¬ (getProp (Model.construct cxSchema
          (Model.toJSON cxSchema (Model.construct cxSchema cxData 0 0)) 1 1) "total"
        = getProp (Model.construct cxSchema cxData 0 0) "total") := by
  intro h
  have h1 : getProp (Model.construct cxSchema
      (Model.toJSON cxSchema (Model.construct cxSchema cxData 0 0)) 1 1) "total"
      = JSVal.nan := rfl
  have h2 : getProp (Model.construct cxSchema cxData 0 0) "total"
      = JSVal.num 5 := rfl
  rw [h1, h2] at h
  exact JSVal.noConfusion h

/-- Witness for C1 (amended): a concrete schema (alias x to y, fields
y: string, b: number, no derived fields) and raw input where the
round trip reproduces the y field and the uuid. -/
theorem construct_toJSON_roundtrip_witness :
    getProp (Model.construct rtSchema
        (Model.toJSON rtSchema (Model.construct rtSchema rtData 0 0)) 1 1) "y"
      = getProp (Model.construct rtSchema rtData 0 0) "y"
    ∧ getProp (Model.construct rtSchema
        (Model.toJSON rtSchema (Model.construct rtSchema rtData 0 0)) 1 1) "uuid"
      = getProp (Model.construct rtSchema rtData 0 0) "uuid" := by
  have h := construct_toJSON_roundtrip rtSchema rtData 0 0 1 1 rfl (by decide)
    (by
      intro pt hpt v
      fin_cases hpt
      · exact string_idem v
      · exact number_idem v)
    (by
      intro ab hab
      fin_cases hab
      exact ⟨rfl, by decide, by decide⟩)
  exact ⟨h.1 "y" rfl, h.2.1⟩

/-- C2: the construction pipeline never raises on any raw input.  Its
embedding is a total function — every JavaScript operation the
constructor performs (key enumeration, property reads and writes, the
registry transformers) is total on the object fragment, so there is no
error path to model — and the returned instance always carries every
schema-declared field plus `uuid`, `paginationId` and `type`: missing or
malformed data degrades to transformer defaults instead of failing. -/
theorem construct_never_fails (S : Model.Schema) (data : Obj) (r1 r2 : Nat) :
    (∀ p, p ∈ List.map Prod.fst S.PROPERTIES →
        hasKey (Model.construct S data r1 r2) p = true)
    ∧ hasKey (Model.construct S data r1 r2) "uuid" = true
    ∧ hasKey (Model.construct S data r1 r2) "paginationId" = true
    ∧ hasKey (Model.construct S data r1 r2) "type" = true := by
  refine ⟨?_, construct_identity_hasKey S data r1 r2⟩
  intro p hp
  unfold Model.construct
  apply hasKey_setProp_mono
  apply hasKey_setProp_mono
  apply hasKey_setProp_mono
  unfold Model.applyDerived
  apply foldl_hasKey_mono_of_writes (Model.derivedStep S data) p _ _
    (fun acc' y _ => (derivedStep_writes S data acc' y).imp id (fun hv => ⟨y.1, hv⟩))
  unfold Model.defaultFill
  exact fill_foldl_hasKey p S.PROPERTIES _ hp

/-- Witness for C2 at a concrete schema and the empty raw input. -/
theorem construct_never_fails_witness :
    hasKey (Model.construct abSchema [] 0 0) "a" = true
    ∧ hasKey (Model.construct abSchema [] 0 0) "uuid" = true :=
  ⟨(construct_never_fails abSchema [] 0 0).1 "a" (by decide),
    (construct_never_fails abSchema [] 0 0).2.1⟩

/-- C3: derived-field precedence in general: whenever a (non-identity)
field name has both a derivation function and a transformer, its
constructed value is `transformer (derivation rawInput)`, overwriting
whatever positional assignment produced.  The witness instantiates the
spec's scenario: constructing from a=2, b=3, total=999 yields
total = 5, not the positionally supplied 999. -/
theorem derived_precedence (S : Model.Schema) (data : Obj) (r1 r2 : Nat)
    (hnd : (List.map Prod.fst S.DERIVED_PROPERTIES).Nodup)
    (d : String) (f : Obj → JSVal) (t : JSVal → JSVal)
    (hdf : (d, f) ∈ S.DERIVED_PROPERTIES)
    (ht : Model.lookupKey S.PROPERTIES d = some t)
    (h1 : d ≠ "uuid") (h2 : d ≠ "paginationId") (h3 : d ≠ "type") :
    getProp (Model.construct S data r1 r2) d = t (f data) := by
  rw [construct_getProp_nonid S data r1 r2 d h1 h2 h3]
  unfold Model.applyDerived
  exact derived_foldl_exact S data d f t ht S.DERIVED_PROPERTIES _ hdf hnd

/-- Witness for C3: the spec's concrete scenario gives total = 5. -/
theorem derived_precedence_witness :
    getProp (Model.construct cxSchema cxData 0 0) "total" = .num 5 := by
  have h := derived_precedence cxSchema cxData 0 0 (by decide) "total" totalDerive
    Model.Types.number (List.mem_singleton.mpr rfl) rfl (by decide) (by decide)
    (by decide)
  rw [h]
  rfl

/-- C4: the stub round trip.  For the instance built from score=10,
id="i1", `stub('score', 11, handle)` yields an instance with score = 11
and the same uuid, and its `toJSON` output contains neither a `promise`
key nor the handle value.  (The freeze the source performs after
attaching the handle has no observable effect in the value model.) -/
theorem stub_roundtrip (n : Nat) :
    getProp (Model.stub stSchema (Model.construct stSchema stData 0 0)
        (.key "score") (.num 11) (.handle n) 0 0) "score" = .num 11
    ∧ getProp (Model.stub stSchema (Model.construct stSchema stData 0 0)
        (.key "score") (.num 11) (.handle n) 0 0) "uuid"
      = getProp (Model.construct stSchema stData 0 0) "uuid"
    ∧ ∀ kv ∈ Model.toJSON stSchema
        (Model.stub stSchema (Model.construct stSchema stData 0 0)
          (.key "score") (.num 11) (.handle n) 0 0),
        kv.1 ≠ "promise" ∧ kv.2 ≠ .handle n := by
  refine ⟨rfl, rfl, ?_⟩
  intro kv hkv
  have hj : Model.toJSON stSchema
      (Model.stub stSchema (Model.construct stSchema stData 0 0)
        (.key "score") (.num 11) (.handle n) 0 0)
      = [("score", .num 11), ("uuid", .str "i1"), ("type", .str "t4")] := rfl
  rw [hj] at hkv
  simp only [List.mem_cons, List.not_mem_nil, or_false] at hkv
  rcases hkv with rfl | rfl | rfl
  · exact ⟨by decide, fun hh => JSVal.noConfusion hh⟩
  · exact ⟨by decide, fun hh => JSVal.noConfusion hh⟩
  · exact ⟨by decide, fun hh => JSVal.noConfusion hh⟩

/-- C5: immutability of `set`.  `new this.constructor(...)` always
allocates, so on the heap model `set` returns a reference distinct from
the (valid) original, and every instance already on the heap — the
original included — is bit-for-bit unchanged, so no previously observed
field value changes. -/
theorem set_returns_fresh (h : Model.Heap) (S : Model.Schema) (ref : Nat)
    (ko : Model.KeyOrObj) (v : JSVal) (r1 r2 : Nat)
    (href : ref < List.length h) :
    (Model.setRef h S ref ko v r1 r2).2 ≠ ref
    ∧ ∀ j, j ≠ (Model.setRef h S ref ko v r1 r2).2 →
        Model.heapGet (Model.setRef h S ref ko v r1 r2).1 j = Model.heapGet h j := by
  have key : ∀ (x : Obj) (j : Nat), j ≠ List.length h →
      List.getD (h ++ [x]) j ([] : List (String × JSVal))
        = List.getD h j ([] : List (String × JSVal)) := by
    intro x j hj
    rcases Nat.lt_or_ge j (List.length h) with hlt | hge
    · exact List.getD_append h [x] _ j hlt
    · have hgt : List.length h < j := lt_of_le_of_ne hge (fun he => hj he.symm)
      have h1 : List.length (h ++ [x]) ≤ j := by
        simp only [List.length_append, List.length_singleton]
        omega
      rw [List.getD_eq_default _ _ h1, List.getD_eq_default _ _ hge]
  constructor
  · exact Nat.ne_of_gt href
  · intro j hj
    exact key _ j hj

/-- Witness for C5: on a one-instance heap, `set` on reference 0 returns
reference 1 and leaves the instance at reference 0 unchanged. -/
theorem set_returns_fresh_witness :
    (Model.setRef exHeap abSchema 0 (.key "a") (.num 1) 0 0).2 ≠ 0
    ∧ Model.heapGet (Model.setRef exHeap abSchema 0 (.key "a") (.num 1) 0 0).1 0
        = Model.heapGet exHeap 0 := by
  have h := set_returns_fresh exHeap abSchema 0 (.key "a") (.num 1) 0 0
    (by decide)
  exact ⟨h.1, h.2 0 (by decide)⟩

/-- C6: every registry transformer, called with no argument (JavaScript
passes `undefined`), returns its empty value and cannot throw — each is a
total function of the embedding.  The empty values: `string` gives "",
`number` gives 0, `array` and `arrayOf t` give [], `bool` gives false;
`likes` and `nop` pass `undefined` through, which is within their declared
pass-through behaviour. -/
theorem types_no_arg_defaults :
    Model.Types.string .undefined = .str ""
    ∧ Model.Types.number .undefined = .num 0
    ∧ Model.Types.array .undefined = .arr []
    ∧ (∀ t : JSVal → JSVal, Model.Types.arrayOf t .undefined = .arr [])
    ∧ Model.Types.bool .undefined = .bool false
    ∧ Model.Types.likes .undefined = .undefined
    ∧ Model.Types.nop .undefined = .undefined :=
  ⟨rfl, rfl, rfl, fun _ => rfl, rfl, rfl, rfl⟩

/-- C7: constructing from the empty raw input against the schema
a: string, b: number yields a = "", b = 0, and a non-empty fallback uuid
(whatever `Math.random()` produced). -/
theorem default_fill_empty_input (r1 r2 : Nat) :
    getProp (Model.construct abSchema [] r1 r2) "a" = .str ""
    ∧ getProp (Model.construct abSchema [] r1 r2) "b" = .num 0
    ∧ ∃ s, getProp (Model.construct abSchema [] r1 r2) "uuid" = .str s
        ∧ s ≠ "" :=
  ⟨rfl, rfl, toString (r1 % 17), rfl,
    toString_lt17_ne_empty (r1 % 17) (Nat.mod_lt r1 (by norm_num))⟩

/-- C8: alias resolution: with aliasMap x to y and transformer y: string,
constructing from x = 5 yields y = "5". -/
theorem alias_resolution (r1 r2 : Nat) :
    getProp (Model.construct aliasSchema [("x", .num 5)] r1 r2) "y"
      = .str "5" := rfl

/-- C9: the tri-state vote coercion: likes(true) = 1, likes(false) = -1,
likes(null) = 0, and any other value — likes(7) included — passes through
unchanged. -/
theorem likes_tristate :
    Model.Types.likes (.bool true) = .num 1
    ∧ Model.Types.likes (.bool false) = .num (-1)
    ∧ Model.Types.likes .null = .num 0
    ∧ Model.Types.likes (.num 7) = .num 7
    ∧ ∀ v, v ≠ .bool true → v ≠ .bool false → v ≠ .null →
        Model.Types.likes v = v := by
  refine ⟨rfl, rfl, rfl, rfl, ?_⟩
  intro v h1 h2 h3
  cases v
  case bool b =>
    cases b
    · exact absurd rfl h2
    · exact absurd rfl h1
  case null => exact absurd rfl h3
  all_goals rfl

/-- Witness for C9: the pass-through clause at the integer 7. -/
theorem likes_tristate_witness : Model.Types.likes (.num 7) = .num 7 :=
  likes_tristate.2.2.2.2 (.num 7) (fun hh => JSVal.noConfusion hh)
    (fun hh => JSVal.noConfusion hh) (fun hh => JSVal.noConfusion hh)

/-- C10: for every schema and every raw input, the constructed
paginationId equals the uuid: the uuid resolution (verbatim uuid, else id,
else the non-empty fake uuid) always produces a truthy value, so
`this.uuid || this.makeUUID(data)` always takes the uuid branch. -/
theorem paginationId_eq_uuid (S : Model.Schema) (data : Obj) (r1 r2 : Nat) :
    getProp (Model.construct S data r1 r2) "paginationId"
      = getProp (Model.construct S data r1 r2) "uuid" := by
  rw [construct_getProp_paginationId, construct_getProp_uuid]
